import Mathlib

/-!
Verification of the FindMe geolocation-inference engine
(`src/python/src/geolocate/gimethods/find-me/method.py`).

The embedding keeps the source's control flow: the mention network is a
structure of a node list, a neighbor-list function and a per-node optional
location; the three passes (`store_location_data`, `compute_coefficients`,
`calculate_location`) are folds that thread the mutated graph exactly as the
Python loops do.  Machine floats are idealised as rationals; the two
transcendental ingredients (the haversine-based distance bucketing and the
log-odds function `log p - log (1-p)` built from the fitted power law) are
abstracted as function parameters, since every claim under scrutiny is about
the surrounding control flow, not about trigonometry.  The external
`scipy.optimize.curve_fit` call is abstracted as an oracle from the sample
arrays to coefficients; the embedding records exactly which samples the code
hands to it (or that the call is skipped).
-/

/-- A latitude/longitude pair, idealised from Python floats to rationals. -/
abbrev Loc : Type := ℚ × ℚ

/-- The zen mention network as used by the source: a node list, neighbor
iteration, and optional per-node location data (`node_data`). -/
structure MentionGraph where
  nodes : List ℕ
  neighbors : ℕ → List ℕ
  nodeData : ℕ → Option Loc

/-- Functional update of the node-data overlay: `G.set_node_data(u, d)`. -/
def setNodeData (G : MentionGraph) (u : ℕ) (d : Loc) : MentionGraph :=
  { G with nodeData := fun v => if v = u then some d else G.nodeData v }

/-- Result of `FindMe.store_location_data`: the mutated graph plus the two
node classes (`nodes_with_data` / `nodes_without_data`). -/
structure StoreResult where
  G : MentionGraph
  nodesWithData : List ℕ
  nodesWithoutData : List ℕ

/-- One iteration of the home-location stream loop in `store_location_data`:
skip the (0, 0) sentinel, skip user ids absent from the graph (zen's
`set_node_data` raises `KeyError` there), otherwise write the location and
record the node as having data. -/
def storeStep (st : MentionGraph × List ℕ) (p : ℕ × Loc) : MentionGraph × List ℕ :=
  if p.2.1 = 0 ∧ p.2.2 = 0 then st
  else if p.1 ∈ st.1.nodes then
    (setNodeData st.1 p.1 p.2, if p.1 ∈ st.2 then st.2 else st.2 ++ [p.1])
  else st

/-- Model of `FindMe.store_location_data`: classify every node into
`nodes_with_data` / `nodes_without_data` while writing the streamed home
locations onto the graph.  Python's `nodes_with_data` set is modelled as a
duplicate-free list in first-seen order; `nodes_without_data` is built, as in
the source, from `set(G.nodes())` minus `nodes_with_data`. -/
def store_location_data (G : MentionGraph) (stream : List (ℕ × Loc)) : StoreResult :=
  let r := stream.foldl storeStep (G, [])
  ⟨r.1, r.2, (G.nodes.dedup).filter (fun u => decide (u ∉ r.2))⟩

/-- The inner accumulation of `calculate_location`: the `log_probability`
of first-hop neighbor data `l_u`, summed over the KnownSet second-hop
neighbors.  `logOdds l_u l_v` stands for the source's
`log(p) - log(1 - p)` with `p = a * (|haversine(l_u, l_v)| + b) ** c`. -/
def logProbabilityOf (logOdds : Loc → Loc → ℚ) (wd : List ℕ) (G : MentionGraph)
    (l_u : Loc) (nbrs : List ℕ) : ℚ :=
  nbrs.foldl (fun acc neighbor_v =>
    if neighbor_v ∈ wd then
      match G.nodeData neighbor_v with
      | some l_v => acc + logOdds l_u l_v
      | none => acc
    else acc) 0

/-- One iteration of the first-hop neighbor loop of `calculate_location`,
threading the pair `(best_log_probability, graph)`.  Mirroring the source:
`best_location` is unconditionally (re)assigned to the current neighbor's
own data before the `>=` comparison, and — since a location tuple is truthy —
`set_node_data(node, best_location)` runs at the end of every non-skipped
iteration.  The comparison only updates `best_log_probability`.  A KnownSet
member with no stored data writes nothing (`best_location` is falsy there);
that state is unreachable after `store_location_data` anyway. -/
def calcStep (logOdds : Loc → Loc → ℚ) (wd : List ℕ) (node : ℕ)
    (st : ℚ × MentionGraph) (neighbor_u : ℕ) : ℚ × MentionGraph :=
  if neighbor_u ∈ wd then
    match st.2.nodeData neighbor_u with
    | some l_u =>
      let log_probability :=
        logProbabilityOf logOdds wd st.2 l_u (st.2.neighbors neighbor_u)
      (if st.1 ≤ log_probability then log_probability else st.1,
       setNodeData st.2 node l_u)
    | none => st
  else st

/-- Processing of a single UnknownSet node by `calculate_location`:
`best_log_probability` starts at `0.0`, then the first-hop neighbor loop
runs. -/
def processNode (logOdds : Loc → Loc → ℚ) (wd : List ℕ) (G : MentionGraph)
    (node : ℕ) : MentionGraph :=
  ((G.neighbors node).foldl (calcStep logOdds wd node) (0, G)).2

/-- Model of `FindMe.calculate_location`: the inference pass over every
`nodes_without_data` member, threading the mutated graph. -/
def calculate_location (logOdds : Loc → Loc → ℚ) (wd wod : List ℕ)
    (G : MentionGraph) : MentionGraph :=
  wod.foldl (processNode logOdds wd) G

/-- The Python `defaultdict(float)` update `d[k] += add`: bump the entry for
`k`, creating it (with prior value `0.0`) when absent. -/
def bumpKey : List (ℚ × ℚ) → ℚ → ℚ → List (ℚ × ℚ)
  | [], k, add => [(k, add)]
  | p :: rest, k, add =>
    if p.1 = k then (p.1, p.2 + add) :: rest else p :: bumpKey rest k add

/-- The `fitting_dictionary` built by `FindMe.compute_coefficients`: for every
KnownSet node and every neighbor whose `node_data` is truthy, accumulate
`additive` into the bucket of the pair's distance.  `bucket l_u l_v` stands
for the source's `round(haversine(l_u, l_v, miles=True), 1)`.  A KnownSet
member with no stored data contributes nothing (unreachable after
`store_location_data`). -/
def fittingDictionary (bucket : Loc → Loc → ℚ) (additive : ℚ) (wd : List ℕ)
    (G : MentionGraph) : List (ℚ × ℚ) :=
  wd.foldl (fun d node =>
    match G.nodeData node with
    | some location_u =>
      (G.neighbors node).foldl (fun d neighbor =>
        match G.nodeData neighbor with
        | some location_v => bumpKey d (bucket location_u location_v) additive
        | none => d) d
    | none => d) []

/-- Lookup into the fitting dictionary (`fitting_dictionary[key]`), with the
`defaultdict` default `0.0` (only ever used at keys known to be present). -/
def lookupD : List (ℚ × ℚ) → ℚ → ℚ
  | [], _ => 0
  | p :: rest, k => if p.1 = k then p.2 else lookupD rest k

/-- The source's `x = np.array(sorted([key for key in fitting_dictionary]))`:
the dictionary's (distinct) keys in ascending order. -/
def sortedBucketKeys (bucket : Loc → Loc → ℚ) (additive : ℚ) (wd : List ℕ)
    (G : MentionGraph) : List ℚ :=
  ((fittingDictionary bucket additive wd G).map Prod.fst).insertionSort (· ≤ ·)

/-- Model of `FindMe.compute_coefficients` up to the external `curve_fit` call:
`none` means the `size == 0` sanity check fired and the routine returned
early; `some (x, y)` records the sample arrays handed to
`scipy.optimize.curve_fit`. -/
def compute_coefficients_call (bucket : Loc → Loc → ℚ) (wd : List ℕ)
    (G : MentionGraph) : Option (List ℚ × List ℚ) :=
  if wd.length = 0 then none
  else
    let additive : ℚ := 1 / wd.length
    let d := fittingDictionary bucket additive wd G
    let xs := sortedBucketKeys bucket additive wd G
    some (xs, xs.map (fun k => lookupD d k))

/-- The model coefficients `(a, b, c)` of `P(d) = a * (d + b) ** c`. -/
structure Coeffs where
  a : ℚ
  b : ℚ
  c : ℚ
deriving DecidableEq

/-- The seed coefficients planted in `FindMe.__init__`
(`a=0.0019, b=0.196, c=-0.015`). -/
def seedCoeffs : Coeffs := ⟨0.0019, 0.196, -0.015⟩

/-- The coefficients held by the engine after `compute_coefficients`:
the seed values when the early return fired, otherwise whatever the
`curve_fit` oracle produced on the samples the code passed it. -/
def coefficientsAfter (curveFit : List ℚ × List ℚ → Coeffs)
    (bucket : Loc → Loc → ℚ) (wd : List ℕ) (G : MentionGraph) : Coeffs :=
  match compute_coefficients_call bucket wd G with
  | none => seedCoeffs
  | some samples => curveFit samples

/-- The state of a full `FindMe.__init__` run. -/
structure FindMeState where
  G : MentionGraph
  nodesWithData : List ℕ
  nodesWithoutData : List ℕ
  coeffs : Coeffs

/-- Model of `FindMe.__init__`: store the home locations and classify the nodes, fit
the coefficients (through the `curve_fit` oracle), then run the inference
pass.  `logOddsOf cs` is the log-odds function induced by the fitted
coefficients.  The two node classes are built once by
`store_location_data` and are never touched afterwards, exactly as in the
source. -/
def findMeRun (curveFit : List ℚ × List ℚ → Coeffs) (bucket : Loc → Loc → ℚ)
    (logOddsOf : Coeffs → Loc → Loc → ℚ) (G : MentionGraph)
    (stream : List (ℕ × Loc)) : FindMeState :=
  let r := store_location_data G stream
  let cs := coefficientsAfter curveFit bucket r.nodesWithData r.G
  { G := calculate_location (logOddsOf cs) r.nodesWithData r.nodesWithoutData r.G
    nodesWithData := r.nodesWithData
    nodesWithoutData := r.nodesWithoutData
    coeffs := cs }

/-- A post record, reduced to the only field the model reads:
`post['user']['id_str']`. -/
structure Post where
  user_id_str : String

/-- Model of `FindMeModel.infer_post_location`, with the class-level counter
`num_posts_inferred` made explicit state: the counter is incremented (it
only feeds periodic logging) and the author id is looked up in the
user-to-location mapping, `None` on a missing key. -/
def infer_post_location (user_id_to_location : List (String × Loc))
    (num_posts_inferred : ℕ) (post : Post) : ℕ × Option Loc :=
  (num_posts_inferred + 1, user_id_to_location.lookup post.user_id_str)

/-- Model of `FindMeModel.infer_posts_by_user`, with both class-level counters made
explicit: bump `num_users_inferred`, then run `infer_post_location` over the
posts left to right, collecting the results in order. -/
def infer_posts_by_user (user_id_to_location : List (String × Loc))
    (num_users_inferred num_posts_inferred : ℕ) (posts : List Post) :
    (ℕ × ℕ) × List (Option Loc) :=
  let r := posts.foldl (fun (st : ℕ × List (Option Loc)) post =>
      let step := infer_post_location user_id_to_location st.1 post
      (step.1, st.2 ++ [step.2])) (num_posts_inferred, [])
  ((num_users_inferred + 1, r.1), r.2)

/-- Python's `line.split("\t")` on a line modelled as a character list:
split at every tab, keeping empty fields, never collapsing separators. -/
def splitTabs : List Char → List (List Char)
  | [] => [[]]
  | c :: rest =>
    if c = '\t' then [] :: splitTabs rest
    else
      match splitTabs rest with
      | g :: gs => (c :: g) :: gs
      | [] => [[c]]

/-- One line of the persisted index as written by `train_model`:
`"%s\t%s\t%s\n" % (user_id, loc[0], loc[1])`, modelled up to the trailing
newline (the file is modelled as the list of its lines).  `fmt` stands for
Python's default float-to-string conversion. -/
def saveLine (fmt : ℚ → List Char) (e : List Char × Loc) : List Char :=
  e.1 ++ '\t' :: (fmt e.2.1 ++ '\t' :: fmt e.2.2)

/-- Model of the persistence loop of `FindMeMethod.train_model`: one line per mapping
entry, in iteration order. -/
def save_index (fmt : ℚ → List Char) (l : List (List Char × Loc)) :
    List (List Char) :=
  l.map (saveLine fmt)

/-- The Python dict assignment `d[k] = v`: overwrite the existing entry for
`k`, else append a fresh one. -/
def dictInsert : List (List Char × Loc) → List Char → Loc → List (List Char × Loc)
  | [], k, v => [(k, v)]
  | p :: rest, k, v =>
    if p.1 = k then (k, v) :: rest else p :: dictInsert rest k v

/-- The parsing loop of `FindMeMethod.load_model`:
`cols = line.split("\t"); d[cols[0]] = (float(cols[1]), float(cols[2]))`.
A line with fewer than three fields (`IndexError`) or an unparseable
latitude/longitude (`ValueError`) aborts the whole load: the result is
`none`.  `parse` stands for Python's `float()` string parsing. -/
def load_lines (parse : List Char → Option ℚ) :
    List (List Char) → List (List Char × Loc) → Option (List (List Char × Loc))
  | [], acc => some acc
  | line :: rest, acc =>
    match splitTabs line with
    | c0 :: c1 :: c2 :: _ =>
      match parse c1, parse c2 with
      | some lat, some lon => load_lines parse rest (dictInsert acc c0 (lat, lon))
      | _, _ => none
    | _ => none

/-- Model of the reconstruction, by `FindMeMethod.load_model`, of the user-to-location
mapping from the persisted file (modelled as its list of lines). -/
def load_index (parse : List Char → Option ℚ) (file : List (List Char)) :
    Option (List (List Char × Loc)) :=
  load_lines parse file []

/-- Specification device: the data of the last member of `nbrs` that lies in
`wd` and carries data (searching from the right), `none` when there is no
such member.  This is the closed form of what the first-hop loop of
`calculate_location` ends up writing. -/
def lastKnownLoc (wd : List ℕ) (G : MentionGraph) : List ℕ → Option Loc
  | [] => none
  | v :: rest =>
    match lastKnownLoc wd G rest with
    | some l => some l
    | none => if v ∈ wd then G.nodeData v else none

/-- Specification device: the distance buckets contributed by one KnownSet
node — one entry per neighbor carrying data, in iteration order. -/
def nodeBuckets (bucket : Loc → Loc → ℚ) (G : MentionGraph) (u : ℕ) : List ℚ :=
  match G.nodeData u with
  | some lu =>
    (G.neighbors u).filterMap (fun v =>
      match G.nodeData v with
      | some lv => some (bucket lu lv)
      | none => none)
  | none => []

/-- Specification device: every histogram contribution of
`compute_coefficients`, one bucket value per (KnownSet user, data-carrying
neighbor) pair. -/
def bucketKeyList (bucket : Loc → Loc → ℚ) (wd : List ℕ) (G : MentionGraph) :
    List ℚ :=
  (wd.map (nodeBuckets bucket G)).flatten

/-- A log-odds function that is identically zero (no second-hop evidence is
consulted in the scenarios it is used for). -/
def loZero : Loc → Loc → ℚ := fun _ _ => 0

/-- A constant negative log-odds value: with the seed coefficients every
probability is far below 1/2, so each unit of second-hop evidence
contributes a negative `log p - log (1-p)`; `-6` is representative. -/
def loNeg : Loc → Loc → ℚ := fun _ _ => -6

/-- A trivial bucketing function for scenarios with no contributing pair. -/
def bucketZero : Loc → Loc → ℚ := fun _ _ => 0

/-- A constant bucketing function: every contributing pair lands in bucket
`7`. -/
def bucketSeven : Loc → Loc → ℚ := fun _ _ => 7

/-- Concrete graph for the `calculate_location` selection analysis: node 1 is
unlocated; its first-hop neighbors are 2 (no located second-hop neighbor,
so `log_probability = 0`) and then 3 (one located second-hop neighbor 4, so
`log_probability = -6 < 0`). -/
def GraphC1 : MentionGraph where
  nodes := [1, 2, 3, 4]
  neighbors := fun n =>
    if n = 1 then [2, 3] else if n = 2 then [1]
    else if n = 3 then [1, 4] else if n = 4 then [3] else []
  nodeData := fun n =>
    if n = 2 then some (10, 10) else if n = 3 then some (20, 20)
    else if n = 4 then some (30, 30) else none

/-- The KnownSet of `GraphC1`. -/
def wdC1 : List ℕ := [2, 3, 4]

/-- The end-to-end scenario graph of the spec: users A, B, C, D are nodes
0, 1, 2, 3 with edges A-B, B-C, C-D and no location data attached yet. -/
def GraphC2 : MentionGraph where
  nodes := [0, 1, 2, 3]
  neighbors := fun n =>
    if n = 0 then [1] else if n = 1 then [0, 2]
    else if n = 2 then [1, 3] else if n = 3 then [2] else []
  nodeData := fun _ => none

/-- The home-location stream of the scenario: A at (40, -73), D at
(41, -74). -/
def streamC2 : List (ℕ × Loc) := [(0, (40, -73)), (3, (41, -74))]

/-- The graph after the scenario's classification pass. -/
def storeC2 : StoreResult := store_location_data GraphC2 streamC2

/-- The scenario graph after one inference pass (no second-hop evidence
exists, so the probability model is irrelevant; `loZero` instantiates it). -/
def calcC2 : MentionGraph :=
  calculate_location loZero storeC2.nodesWithData storeC2.nodesWithoutData storeC2.G

/-- Tiny witness graph: unlocated node 0 with located neighbor 1. -/
def GraphC3 : MentionGraph where
  nodes := [0, 1]
  neighbors := fun n => if n = 0 then [1] else if n = 1 then [0] else []
  nodeData := fun n => if n = 1 then some (10, 10) else none

/-- Witness graph for the histogram claim: located nodes 0 and 1 joined by an
edge, so each contributes the pair with the other. -/
def GraphC5 : MentionGraph where
  nodes := [0, 1]
  neighbors := fun n => if n = 0 then [1] else if n = 1 then [0] else []
  nodeData := fun n =>
    if n = 0 then some (1, 1) else if n = 1 then some (2, 2) else none

/-- A graph whose single node is located but has no neighbor at all: the
KnownSet is nonempty while the fitting histogram stays empty. -/
def GraphC4 : MentionGraph where
  nodes := [0]
  neighbors := fun _ => []
  nodeData := fun n => if n = 0 then some (1, 1) else none

/-- A `curve_fit` oracle distinguishable from the seed coefficients. -/
def curveFitOther : List ℚ × List ℚ → Coeffs := fun _ => ⟨1, 1, 1⟩

/-- Witness graph for the frame claim: located node 0, unlocated node 1. -/
def GraphC9 : MentionGraph where
  nodes := [0, 1]
  neighbors := fun n => if n = 0 then [1] else if n = 1 then [0] else []
  nodeData := fun _ => none

/-- Home-location stream for `GraphC9`: only node 0 is located. -/
def streamC9 : List (ℕ × Loc) := [(0, (10, 10))]

/-- A number formatter for the persistence model, covering the numerals the
concrete scenarios use (Python's `str` of a float, restricted to that
range). -/
def fmtNum : ℚ → List Char := fun q =>
  if q = 40 then ['4', '0'] else if q = -73 then ['-', '7', '3']
  else if q = 1 then ['1'] else []

/-- A float-string parser for the persistence model, inverse to `fmtNum` on
its range and failing elsewhere, as Python's `float()` does on
non-numeric text. -/
def parseNum : List Char → Option ℚ := fun s =>
  if s = ['1'] then some 1 else if s = ['4', '0'] then some 40
  else if s = ['-', '7', '3'] then some (-73) else none

/-- A persisted index whose single user identifier contains a tab. -/
def idxTab : List (List Char × Loc) := [(['a', '\t', '1'], (40, -73))]

/-- A well-behaved persisted index: tab-free identifier, values in the range
of `fmtNum`. -/
def idxPlain : List (List Char × Loc) := [(['A'], (40, -73))]

/-- A persisted file whose single line has only two tab-separated fields. -/
def fileTwoFields : List (List Char) := [['a', '\t', '1']]

theorem foldl_preserves_mem {α β : Type} (f : β → α → β) (P : β → Prop) :
    ∀ (l : List α) (b : β), (∀ b' a, a ∈ l → P b' → P (f b' a)) → P b → P (l.foldl f b)
  | [], _, _, hb => hb
  | a :: l, b, h, hb =>
    foldl_preserves_mem f P l (f b a)
      (fun b' a' ha' => h b' a' (List.mem_cons_of_mem _ ha'))
      (h b a (List.mem_cons_self _ _) hb)

theorem nodeData_setNodeData_self (G : MentionGraph) (u : ℕ) (d : Loc) :
    (setNodeData G u d).nodeData u = some d := by
  simp [setNodeData]

theorem nodeData_setNodeData_ne (G : MentionGraph) (u : ℕ) (d : Loc) (v : ℕ)
    (h : v ≠ u) : (setNodeData G u d).nodeData v = G.nodeData v := by
  simp [setNodeData, h]

theorem calcStep_nodeData_ne (lo : Loc → Loc → ℚ) (wd : List ℕ) (node : ℕ)
    (st : ℚ × MentionGraph) (m : ℕ) (v : ℕ) (h : v ≠ node) :
    ((calcStep lo wd node st m).2).nodeData v = st.2.nodeData v := by
  unfold calcStep
  split
  · cases hm : st.2.nodeData m with
    | none => simp [hm]
    | some l_u => simp [hm, nodeData_setNodeData_ne _ _ _ _ h]
  · rfl

theorem calcStep_neighbors (lo : Loc → Loc → ℚ) (wd : List ℕ) (node : ℕ)
    (st : ℚ × MentionGraph) (m : ℕ) :
    ((calcStep lo wd node st m).2).neighbors = st.2.neighbors := by
  unfold calcStep
  split
  · cases hm : st.2.nodeData m with
    | none => simp [hm]
    | some l_u => simp [hm, setNodeData]
  · rfl

theorem processNode_nodeData_ne (lo : Loc → Loc → ℚ) (wd : List ℕ)
    (G : MentionGraph) (node : ℕ) (v : ℕ) (h : v ≠ node) :
    (processNode lo wd G node).nodeData v = G.nodeData v := by
  unfold processNode
  exact foldl_preserves_mem (calcStep lo wd node)
    (fun st => st.2.nodeData v = G.nodeData v) (G.neighbors node) (0, G)
    (fun st m _ hst => (calcStep_nodeData_ne lo wd node st m v h).trans hst) rfl

theorem processNode_neighbors (lo : Loc → Loc → ℚ) (wd : List ℕ)
    (G : MentionGraph) (node : ℕ) :
    (processNode lo wd G node).neighbors = G.neighbors := by
  unfold processNode
  exact foldl_preserves_mem (calcStep lo wd node)
    (fun st => st.2.neighbors = G.neighbors) (G.neighbors node) (0, G)
    (fun st m _ hst => (calcStep_neighbors lo wd node st m).trans hst) rfl

theorem lastKnownLoc_congr (wd : List ℕ) (G H : MentionGraph)
    (hagree : ∀ m ∈ wd, H.nodeData m = G.nodeData m) :
    ∀ nbrs : List ℕ, lastKnownLoc wd H nbrs = lastKnownLoc wd G nbrs
  | [] => rfl
  | v :: rest => by
    unfold lastKnownLoc
    rw [lastKnownLoc_congr wd G H hagree rest]
    cases lastKnownLoc wd G rest with
    | some l => rfl
    | none =>
      by_cases hv : v ∈ wd
      · simp [hv, hagree v hv]
      · simp [hv]

theorem lastKnownLoc_eq_none (wd : List ℕ) (G : MentionGraph) :
    ∀ nbrs : List ℕ, (∀ m ∈ nbrs, m ∉ wd) → lastKnownLoc wd G nbrs = none
  | [], _ => rfl
  | v :: rest, h => by
    unfold lastKnownLoc
    rw [lastKnownLoc_eq_none wd G rest (fun m hm => h m (List.mem_cons_of_mem _ hm))]
    simp [h v (List.mem_cons_self _ _)]

theorem lastKnownLoc_isSome_iff (wd : List ℕ) (G : MentionGraph)
    (hd : ∀ m ∈ wd, (G.nodeData m).isSome) :
    ∀ nbrs : List ℕ, (lastKnownLoc wd G nbrs).isSome ↔ ∃ m ∈ nbrs, m ∈ wd
  | [] => by simp [lastKnownLoc]
  | v :: rest => by
    unfold lastKnownLoc
    cases hrest : lastKnownLoc wd G rest with
    | some l =>
      have : ∃ m ∈ rest, m ∈ wd := by
        rw [← lastKnownLoc_isSome_iff wd G hd rest, hrest]; rfl
      rcases this with ⟨m, hm, hmwd⟩
      simp only [Option.isSome_some, true_iff]
      exact ⟨m, List.mem_cons_of_mem _ hm, hmwd⟩
    | none =>
      have hnrest : ¬ ∃ m ∈ rest, m ∈ wd := by
        rw [← lastKnownLoc_isSome_iff wd G hd rest, hrest]; simp
      by_cases hv : v ∈ wd
      · have := hd v hv
        simp only [hv, if_true]
        constructor
        · intro _; exact ⟨v, List.mem_cons_self _ _, hv⟩
        · intro _; exact this
      · simp only [hv, if_false, Option.isSome_none, Bool.false_eq_true, false_iff]
        rintro ⟨m, hm, hmwd⟩
        rcases List.mem_cons.1 hm with rfl | hm
        · exact hv hmwd
        · exact hnrest ⟨m, hm, hmwd⟩

theorem calcFold_nodeData_self (lo : Loc → Loc → ℚ) (wd : List ℕ) (node : ℕ)
    (hn : node ∉ wd) (G : MentionGraph) :
    ∀ (nbrs : List ℕ) (st : ℚ × MentionGraph),
      (∀ v, v ≠ node → st.2.nodeData v = G.nodeData v) →
      ((nbrs.foldl (calcStep lo wd node) st).2).nodeData node =
        (match lastKnownLoc wd G nbrs with
         | some l => some l
         | none => st.2.nodeData node)
  | [], st, _ => by simp [lastKnownLoc]
  | m :: rest, st, hag => by
    rw [List.foldl_cons]
    have hag' : ∀ v, v ≠ node →
        ((calcStep lo wd node st m).2).nodeData v = G.nodeData v :=
      fun v hv => (calcStep_nodeData_ne lo wd node st m v hv).trans (hag v hv)
    rw [calcFold_nodeData_self lo wd node hn G rest _ hag']
    show (match lastKnownLoc wd G rest with
          | some l => some l
          | none => ((calcStep lo wd node st m).2).nodeData node) = _
    cases hrest : lastKnownLoc wd G rest with
    | some l => simp [lastKnownLoc, hrest]
    | none =>
      by_cases hm : m ∈ wd
      · have hmne : m ≠ node := fun he => hn (he ▸ hm)
        have hagm : st.2.nodeData m = G.nodeData m := hag m hmne
        cases hdm : st.2.nodeData m with
        | some l_u =>
          have : ((calcStep lo wd node st m).2).nodeData node = some l_u := by
            unfold calcStep
            simp only [hm, if_true, hdm]
            exact nodeData_setNodeData_self _ _ _
          rw [this]
          simp [lastKnownLoc, hrest, hm, ← hagm, hdm]
        | none =>
          have : calcStep lo wd node st m = st := by
            unfold calcStep
            simp [hm, hdm]
          rw [this]
          simp [lastKnownLoc, hrest, hm, ← hagm, hdm]
      · have : calcStep lo wd node st m = st := by
          unfold calcStep
          simp [hm]
        rw [this]
        simp [lastKnownLoc, hrest, hm]

theorem processNode_nodeData_self (lo : Loc → Loc → ℚ) (wd : List ℕ)
    (G : MentionGraph) (node : ℕ) (hn : node ∉ wd) :
    (processNode lo wd G node).nodeData node =
      (match lastKnownLoc wd G (G.neighbors node) with
       | some l => some l
       | none => G.nodeData node) :=
  calcFold_nodeData_self lo wd node hn G (G.neighbors node) (0, G) (fun _ _ => rfl)

theorem processNode_isSome_at (lo : Loc → Loc → ℚ) (wd : List ℕ)
    (G H : MentionGraph) (u : ℕ) (hu : u ∉ wd)
    (hd : ∀ m ∈ wd, (G.nodeData m).isSome)
    (hk : ∃ m ∈ G.neighbors u, m ∈ wd)
    (h1 : ∀ m ∈ wd, H.nodeData m = G.nodeData m)
    (h2 : H.neighbors = G.neighbors) :
    ((processNode lo wd H u).nodeData u).isSome := by
  rw [processNode_nodeData_self lo wd H u hu, h2, lastKnownLoc_congr wd G H h1]
  have hsome : (lastKnownLoc wd G (G.neighbors u)).isSome :=
    (lastKnownLoc_isSome_iff wd G hd (G.neighbors u)).2 hk
  cases hl : lastKnownLoc wd G (G.neighbors u) with
  | some l => simp
  | none => rw [hl] at hsome; simp at hsome

theorem calc_pass_frame (lo : Loc → Loc → ℚ) (wd wod : List ℕ)
    (G : MentionGraph) (v : ℕ) (hv : v ∉ wod) :
    (calculate_location lo wd wod G).nodeData v = G.nodeData v := by
  unfold calculate_location
  exact foldl_preserves_mem (processNode lo wd)
    (fun H => H.nodeData v = G.nodeData v) wod G
    (fun H n hn hH =>
      (processNode_nodeData_ne lo wd H n v (fun he => hv (he ▸ hn))).trans hH)
    rfl

theorem c3_none_aux (lo : Loc → Loc → ℚ) (wd wod : List ℕ) (G : MentionGraph)
    (u : ℕ) (hdisj : ∀ n ∈ wod, n ∉ wd)
    (hnk : ∀ m ∈ G.neighbors u, m ∉ wd) :
    (calculate_location lo wd wod G).nodeData u = G.nodeData u := by
  unfold calculate_location
  have key := foldl_preserves_mem (processNode lo wd)
    (fun H => (∀ m ∈ wd, H.nodeData m = G.nodeData m) ∧
      H.neighbors = G.neighbors ∧ H.nodeData u = G.nodeData u) wod G
    (fun H n hn hH => by
      have hnwd : n ∉ wd := hdisj n hn
      obtain ⟨h1, h2, h3⟩ := hH
      refine ⟨?_, ?_, ?_⟩
      · intro m hm
        exact (processNode_nodeData_ne lo wd H n m
          (fun he => hnwd (he ▸ hm))).trans (h1 m hm)
      · exact (processNode_neighbors lo wd H n).trans h2
      · by_cases hun : u = n
        · subst hun
          rw [processNode_nodeData_self lo wd H u hnwd, h2,
            lastKnownLoc_congr wd G H h1, lastKnownLoc_eq_none wd G _ hnk]
          exact h3
        · exact (processNode_nodeData_ne lo wd H n u hun).trans h3)
    ⟨fun _ _ => rfl, rfl, rfl⟩
  exact key.2.2

theorem c3_some_aux (lo : Loc → Loc → ℚ) (wd : List ℕ) (G : MentionGraph)
    (u : ℕ) (hd : ∀ m ∈ wd, (G.nodeData m).isSome)
    (hk : ∃ m ∈ G.neighbors u, m ∈ wd) :
    ∀ (wod : List ℕ) (H : MentionGraph), (∀ n ∈ wod, n ∉ wd) → u ∈ wod →
      (∀ m ∈ wd, H.nodeData m = G.nodeData m) → H.neighbors = G.neighbors →
      ((List.foldl (processNode lo wd) H wod).nodeData u).isSome
  | [], _, _, hu, _, _ => absurd hu (List.not_mem_nil _)
  | n :: rest, H, hwod, hu, h1, h2 => by
    have hnwd : n ∉ wd := hwod n (List.mem_cons_self _ _)
    have h1' : ∀ m ∈ wd, (processNode lo wd H n).nodeData m = G.nodeData m :=
      fun m hm => (processNode_nodeData_ne lo wd H n m
        (fun he => hnwd (he ▸ hm))).trans (h1 m hm)
    have h2' : (processNode lo wd H n).neighbors = G.neighbors :=
      (processNode_neighbors lo wd H n).trans h2
    rw [List.foldl_cons]
    rcases List.mem_cons.1 hu with rfl | hurest
    · -- u is the node processed first: it receives data and keeps it
      have hstart : ((processNode lo wd H u).nodeData u).isSome :=
        processNode_isSome_at lo wd G H u hnwd hd hk h1 h2
      have key := foldl_preserves_mem (processNode lo wd)
        (fun H' => (∀ m ∈ wd, H'.nodeData m = G.nodeData m) ∧
          H'.neighbors = G.neighbors ∧ (H'.nodeData u).isSome) rest
        (processNode lo wd H u)
        (fun H' n' hn' hH' => by
          have hn'wd : n' ∉ wd := hwod n' (List.mem_cons_of_mem _ hn')
          obtain ⟨g1, g2, g3⟩ := hH'
          refine ⟨?_, ?_, ?_⟩
          · intro m hm
            exact (processNode_nodeData_ne lo wd H' n' m
              (fun he => hn'wd (he ▸ hm))).trans (g1 m hm)
          · exact (processNode_neighbors lo wd H' n').trans g2
          · by_cases hun : u = n'
            · subst hun
              exact processNode_isSome_at lo wd G H' u hn'wd hd hk g1 g2
            · rw [processNode_nodeData_ne lo wd H' n' u hun]
              exact g3)
        ⟨h1', h2', hstart⟩
      exact key.2.2
    · exact c3_some_aux lo wd G u hd hk rest (processNode lo wd H n)
        (fun n' hn' => hwod n' (List.mem_cons_of_mem _ hn')) hurest h1' h2'

theorem store_wd_subset (G : MentionGraph) (stream : List (ℕ × Loc)) :
    ∀ x ∈ (store_location_data G stream).nodesWithData, x ∈ G.nodes := by
  have key := foldl_preserves_mem storeStep
    (fun st => (∀ x ∈ st.2, x ∈ G.nodes) ∧ st.1.nodes = G.nodes) stream (G, [])
    (fun st p _ h => by
      unfold storeStep
      by_cases hs : p.2.1 = 0 ∧ p.2.2 = 0
      · simpa [hs] using h
      · simp only [hs, if_false]
        by_cases hmem : p.1 ∈ st.1.nodes
        · simp only [hmem, if_true]
          refine ⟨?_, h.2⟩
          intro x hx
          by_cases hx2 : p.1 ∈ st.2
          · rw [if_pos hx2] at hx
            exact h.1 x hx
          · rw [if_neg hx2] at hx
            rcases List.mem_append.1 hx with hx | hx
            · exact h.1 x hx
            · rw [List.mem_singleton.1 hx, ← h.2]
              exact hmem
        · simpa [hmem] using h)
    ⟨by simp, rfl⟩
  exact key.1

theorem store_mem_wod_iff (G : MentionGraph) (stream : List (ℕ × Loc)) (x : ℕ) :
    x ∈ (store_location_data G stream).nodesWithoutData ↔
      x ∈ G.nodes ∧ x ∉ (store_location_data G stream).nodesWithData := by
  simp [store_location_data, List.mem_filter, List.mem_dedup]

/-- Claim C8: after the classification pass, KnownSet and UnknownSet are
disjoint and cover exactly the graph's node set, and the full run
(`FindMe.__init__`, i.e. classification, then estimation, then inference)
leaves both sets exactly as the classification pass built them. -/
theorem findme_partition_invariant (curveFit : List ℚ × List ℚ → Coeffs)
    (bucket : Loc → Loc → ℚ) (logOddsOf : Coeffs → Loc → Loc → ℚ)
    (G : MentionGraph) (stream : List (ℕ × Loc)) :
    (store_location_data G stream).nodesWithData.toFinset ∩
        (store_location_data G stream).nodesWithoutData.toFinset = ∅
    ∧ (store_location_data G stream).nodesWithData.toFinset ∪
        (store_location_data G stream).nodesWithoutData.toFinset = G.nodes.toFinset
    ∧ (findMeRun curveFit bucket logOddsOf G stream).nodesWithData =
        (store_location_data G stream).nodesWithData
    ∧ (findMeRun curveFit bucket logOddsOf G stream).nodesWithoutData =
        (store_location_data G stream).nodesWithoutData := by
  refine ⟨?_, ?_, rfl, rfl⟩
  · ext x
    simp only [Finset.mem_inter, List.mem_toFinset, Finset.not_mem_empty, iff_false]
    rintro ⟨h1, h2⟩
    exact ((store_mem_wod_iff G stream x).1 h2).2 h1
  · ext x
    simp only [Finset.mem_union, List.mem_toFinset]
    constructor
    · rintro (h | h)
      · exact store_wd_subset G stream x h
      · exact ((store_mem_wod_iff G stream x).1 h).1
    · intro hx
      by_cases hwd : x ∈ (store_location_data G stream).nodesWithData
      · exact Or.inl hwd
      · exact Or.inr ((store_mem_wod_iff G stream x).2 ⟨hx, hwd⟩)

/-- Claim C9: the inference pass only ever writes onto UnknownSet nodes — the
stored location of every KnownSet node is untouched by `calculate_location`
(and C8 already records that the KnownSet itself is never modified). -/
theorem inference_frame_known_nodes (logOdds : Loc → Loc → ℚ)
    (G : MentionGraph) (stream : List (ℕ × Loc)) (n : ℕ)
    (hn : n ∈ (store_location_data G stream).nodesWithData) :
    (calculate_location logOdds (store_location_data G stream).nodesWithData
        (store_location_data G stream).nodesWithoutData
        (store_location_data G stream).G).nodeData n =
      (store_location_data G stream).G.nodeData n := by
  refine calc_pass_frame logOdds _ _ _ n (fun hmem => ?_)
  exact ((store_mem_wod_iff G stream n).1 hmem).2 hn

/-- Witness for claim C9 at a concrete run: node 0 is in KnownSet and its
location survives the inference pass. -/
theorem inference_frame_known_nodes_witness :
    (calculate_location loZero (store_location_data GraphC9 streamC9).nodesWithData
        (store_location_data GraphC9 streamC9).nodesWithoutData
        (store_location_data GraphC9 streamC9).G).nodeData 0 =
      (store_location_data GraphC9 streamC9).G.nodeData 0 :=
  inference_frame_known_nodes loZero GraphC9 streamC9 0 (by decide)

/-- Claim C3: for an UnknownSet node `u` (no stored data, disjoint from the
KnownSet, whose members all carry data), the inference pass attaches a
location to `u` exactly when `u` has at least one first-hop neighbor in the
KnownSet. -/
theorem inference_writes_iff_known_neighbor (logOdds : Loc → Loc → ℚ)
    (wd wod : List ℕ) (G : MentionGraph) (u : ℕ)
    (hu : u ∈ wod) (h0 : G.nodeData u = none)
    (hd : ∀ m ∈ wd, (G.nodeData m).isSome)
    (hdisj : ∀ n ∈ wod, n ∉ wd) :
    ((calculate_location logOdds wd wod G).nodeData u).isSome ↔
      ∃ m ∈ G.neighbors u, m ∈ wd := by
  by_cases hk : ∃ m ∈ G.neighbors u, m ∈ wd
  · simp only [hk, iff_true]
    exact c3_some_aux logOdds wd G u hd hk wod G hdisj hu (fun _ _ => rfl) rfl
  · push_neg at hk
    rw [c3_none_aux logOdds wd wod G u hdisj hk, h0]
    simp only [Option.isSome_none, Bool.false_eq_true, false_iff]
    rintro ⟨m, hm, hmwd⟩
    exact hk m hm hmwd

/-- Witness for claim C3 at a concrete instance: unlocated node 0 with the
located neighbor 1. -/
theorem inference_writes_iff_known_neighbor_witness :
    ((calculate_location loZero [1] [0] GraphC3).nodeData 0).isSome ↔
      ∃ m ∈ GraphC3.neighbors 0, m ∈ [1] :=
  inference_writes_iff_known_neighbor loZero [1] [0] GraphC3 0
    (by decide) (by decide) (by decide) (by decide)

/-- Claim C1, evaluated at the failing input (code bug): in `GraphC1`, node
1's first-hop KnownSet neighbors are 2 (accumulated log-odds 0) and then 3
(accumulated log-odds -6).  The argmax under the `>=` policy is neighbor 2,
yet the pass writes neighbor 3's location, because the source reassigns
`best_location` to the current neighbor unconditionally and performs the
write inside the neighbor loop. -/
theorem selection_writes_last_known_neighbor :
    logProbabilityOf loNeg wdC1 GraphC1 (10, 10) (GraphC1.neighbors 2) = 0
    ∧ logProbabilityOf loNeg wdC1 GraphC1 (20, 20) (GraphC1.neighbors 3) = -6
    ∧ (calculate_location loNeg wdC1 [1] GraphC1).nodeData 1 = some (20, 20)
    ∧ (calculate_location loNeg wdC1 [1] GraphC1).nodeData 1 ≠ some (10, 10) :=
  ⟨by decide, by norm_num [logProbabilityOf, loNeg, wdC1, GraphC1],
   by decide, by decide⟩

/-- Counterexample to claim C2: in the A-B-C-D scenario, C (node 2) does not
stay unlocated — D is a known first-hop neighbor of C. -/
theorem scenario_c_receives_location : calcC2.nodeData 2 ≠ none := by
  decide

/-- Claim C2 as amended: after the inference pass, B (node 1) carries A's
location (40, -73) and C (node 2) carries D's location (41, -74). -/
theorem scenario_b_and_c_locations :
    calcC2.nodeData 1 = some (40, -73) ∧ calcC2.nodeData 2 = some (41, -74) := by
  constructor
  · decide
  · decide

/-- Counterexample to claim C4: with a nonempty KnownSet whose users have no
located neighbors, the sample sequence is empty, yet the guard does not
fire — `curve_fit` is invoked on the empty arrays (so the coefficients are
not kept at the seed values by a skip; here the oracle yields (1,1,1)). -/
theorem fitting_not_skipped_on_empty_samples :
    compute_coefficients_call bucketZero [0] GraphC4 = some ([], [])
    ∧ compute_coefficients_call bucketZero [0] GraphC4 ≠ none
    ∧ coefficientsAfter curveFitOther bucketZero [0] GraphC4 = ⟨1, 1, 1⟩
    ∧ (⟨1, 1, 1⟩ : Coeffs) ≠ seedCoeffs := by
  refine ⟨by decide, by decide, by decide, ?_⟩
  simp only [seedCoeffs, ne_eq, Coeffs.mk.injEq, not_and]
  norm_num

/-- Claim C4 as amended: the curve-fitting step is skipped (and the
coefficients keep their seed values) exactly when the KnownSet is empty;
with a nonempty KnownSet the fitting call is made even on empty samples. -/
theorem fitting_skip_iff_empty_knownset (curveFit : List ℚ × List ℚ → Coeffs)
    (bucket : Loc → Loc → ℚ) (wd : List ℕ) (G : MentionGraph) :
    (compute_coefficients_call bucket wd G = none ↔ wd = [])
    ∧ coefficientsAfter curveFit bucket ([] : List ℕ) G = seedCoeffs := by
  constructor
  · by_cases h : wd.length = 0
    · simp [compute_coefficients_call, h, List.length_eq_zero.1 h]
    · have hne : wd ≠ [] := fun he => h (by simp [he])
      simp [compute_coefficients_call, h, hne]
  · rfl

theorem infer_fold_eq (m : List (String × Loc)) :
    ∀ (posts : List Post) (c : ℕ) (acc : List (Option Loc)),
      (posts.foldl (fun (st : ℕ × List (Option Loc)) post =>
          let step := infer_post_location m st.1 post
          (step.1, st.2 ++ [step.2])) (c, acc)).2
        = acc ++ posts.map (fun p => m.lookup p.user_id_str)
  | [], _, _ => by simp
  | p :: rest, c, acc => by
    rw [List.foldl_cons]
    show (List.foldl _ (c + 1, acc ++ [m.lookup p.user_id_str]) rest).2 = _
    rw [infer_fold_eq m rest (c + 1) (acc ++ [m.lookup p.user_id_str])]
    simp

/-- Claim C10: the returned locations of `infer_post_location` and
`infer_posts_by_user` depend only on the user-to-location mapping and the
posts' author identifiers — the shared counters `num_posts_inferred` and
`num_users_inferred` never influence them — and `infer_posts_by_user`
returns exactly one result per post, in input order. -/
theorem inference_results_ignore_counters (m : List (String × Loc))
    (c1 c2 u1 u2 : ℕ) (posts : List Post) (post : Post) :
    (infer_post_location m c1 post).2 = (infer_post_location m c2 post).2
    ∧ (infer_posts_by_user m u1 c1 posts).2 =
        posts.map (fun p => (infer_post_location m c2 p).2)
    ∧ (infer_posts_by_user m u1 c1 posts).2 = (infer_posts_by_user m u2 c2 posts).2
    ∧ ((infer_posts_by_user m u1 c1 posts).2).length = posts.length := by
  have hmap : ∀ (u c : ℕ), (infer_posts_by_user m u c posts).2 =
      posts.map (fun p => m.lookup p.user_id_str) := by
    intro u c
    unfold infer_posts_by_user
    rw [infer_fold_eq m posts c []]
    simp
  refine ⟨rfl, ?_, ?_, ?_⟩
  · rw [hmap u1 c1]; rfl
  · rw [hmap u1 c1, hmap u2 c2]
  · rw [hmap u1 c1, List.length_map]

theorem lookupD_bumpKey (k add k' : ℚ) :
    ∀ d : List (ℚ × ℚ),
      lookupD (bumpKey d k add) k' = lookupD d k' + (if k' = k then add else 0)
  | [] => by
    rcases eq_or_ne k' k with rfl | h
    · simp [bumpKey, lookupD]
    · have h' : ¬ k = k' := fun he => h he.symm
      simp [bumpKey, lookupD, h, h']
  | p :: rest => by
    rcases eq_or_ne p.1 k with h1 | h1
    · rw [show bumpKey (p :: rest) k add = (p.1, p.2 + add) :: rest by
        simp [bumpKey, h1]]
      rcases eq_or_ne p.1 k' with h2 | h2
      · have hk' : k' = k := h2.symm.trans h1
        simp only [lookupD, h2, if_true, hk', if_pos]
      · have hk' : ¬ k' = k := fun he => h2 (h1.trans he.symm)
        simp [lookupD, h2, hk']
    · rw [show bumpKey (p :: rest) k add = p :: bumpKey rest k add by
        simp [bumpKey, h1]]
      rcases eq_or_ne p.1 k' with h2 | h2
      · have hk' : ¬ k' = k := fun he => h1 (h2.trans he)
        simp [lookupD, h2, hk']
      · simp only [lookupD, if_neg h2]
        exact lookupD_bumpKey k add k' rest

theorem mem_keys_bumpKey (k add k' : ℚ) :
    ∀ d : List (ℚ × ℚ),
      k' ∈ (bumpKey d k add).map Prod.fst ↔ k' ∈ d.map Prod.fst ∨ k' = k
  | [] => by simp [bumpKey]
  | p :: rest => by
    by_cases h1 : p.1 = k
    · subst h1
      simp [bumpKey]
      tauto
    · simp [bumpKey, h1, mem_keys_bumpKey k add k' rest]
      tauto

theorem nodup_keys_bumpKey (k add : ℚ) :
    ∀ d : List (ℚ × ℚ),
      (d.map Prod.fst).Nodup → ((bumpKey d k add).map Prod.fst).Nodup
  | [] => by simp [bumpKey]
  | p :: rest => by
    intro h
    rw [List.map_cons, List.nodup_cons] at h
    by_cases h1 : p.1 = k
    · subst h1
      simpa [bumpKey, List.nodup_cons] using h
    · rw [show bumpKey (p :: rest) k add = p :: bumpKey rest k add by
        simp [bumpKey, h1]]
      rw [List.map_cons, List.nodup_cons]
      refine ⟨?_, nodup_keys_bumpKey k add rest h.2⟩
      rw [mem_keys_bumpKey]
      rintro (hmem | hmem)
      · exact h.1 hmem
      · exact h1 hmem

theorem inner_fold_lookupD (bucket : Loc → Loc → ℚ) (add : ℚ)
    (G : MentionGraph) (lu : Loc) (k : ℚ) :
    ∀ (nbrs : List ℕ) (d : List (ℚ × ℚ)),
      lookupD (nbrs.foldl (fun d v =>
          match G.nodeData v with
          | some lv => bumpKey d (bucket lu lv) add
          | none => d) d) k
        = lookupD d k + add * (((nbrs.filterMap (fun v =>
            match G.nodeData v with
            | some lv => some (bucket lu lv)
            | none => none)).count k : ℕ) : ℚ)
  | [], d => by simp
  | v :: rest, d => by
    rw [List.foldl_cons, List.filterMap_cons]
    cases hv : G.nodeData v with
    | none =>
      simp only [hv]
      exact inner_fold_lookupD bucket add G lu k rest d
    | some lv =>
      simp only [hv]
      rw [inner_fold_lookupD bucket add G lu k rest (bumpKey d (bucket lu lv) add)]
      rw [lookupD_bumpKey, List.count_cons]
      rcases eq_or_ne k (bucket lu lv) with rfl | hk
      · simp only [beq_self_eq_true, if_true, if_pos rfl]
        push_cast
        ring
      · rw [if_neg hk]
        rw [if_neg (by simp only [beq_iff_eq]; exact fun he => hk he.symm :
          ¬ ((bucket lu lv == k) = true))]
        push_cast
        ring

theorem inner_fold_mem_keys (bucket : Loc → Loc → ℚ) (add : ℚ)
    (G : MentionGraph) (lu : Loc) (k' : ℚ) :
    ∀ (nbrs : List ℕ) (d : List (ℚ × ℚ)),
      k' ∈ ((nbrs.foldl (fun d v =>
          match G.nodeData v with
          | some lv => bumpKey d (bucket lu lv) add
          | none => d) d).map Prod.fst)
        ↔ k' ∈ d.map Prod.fst ∨ k' ∈ nbrs.filterMap (fun v =>
            match G.nodeData v with
            | some lv => some (bucket lu lv)
            | none => none)
  | [], d => by simp
  | v :: rest, d => by
    rw [List.foldl_cons, List.filterMap_cons]
    cases hv : G.nodeData v with
    | none =>
      simp only [hv]
      exact inner_fold_mem_keys bucket add G lu k' rest d
    | some lv =>
      simp only [hv]
      rw [inner_fold_mem_keys bucket add G lu k' rest (bumpKey d (bucket lu lv) add)]
      rw [mem_keys_bumpKey]
      simp only [List.mem_cons]
      tauto

theorem inner_fold_nodup_keys (bucket : Loc → Loc → ℚ) (add : ℚ)
    (G : MentionGraph) (lu : Loc) (nbrs : List ℕ) (d : List (ℚ × ℚ))
    (h : (d.map Prod.fst).Nodup) :
    (((nbrs.foldl (fun d v =>
        match G.nodeData v with
        | some lv => bumpKey d (bucket lu lv) add
        | none => d) d)).map Prod.fst).Nodup := by
  refine foldl_preserves_mem _ (fun d' => (d'.map Prod.fst).Nodup) nbrs d
    (fun d' v _ hd' => ?_) h
  cases hv : G.nodeData v with
  | none => simpa [hv] using hd'
  | some lv =>
    simp only [hv]
    exact nodup_keys_bumpKey _ _ _ hd'

theorem outer_fold_lookupD (bucket : Loc → Loc → ℚ) (add : ℚ)
    (G : MentionGraph) (k : ℚ) :
    ∀ (wd : List ℕ) (d : List (ℚ × ℚ)),
      lookupD (wd.foldl (fun d node =>
          match G.nodeData node with
          | some location_u =>
            (G.neighbors node).foldl (fun d neighbor =>
              match G.nodeData neighbor with
              | some location_v => bumpKey d (bucket location_u location_v) add
              | none => d) d
          | none => d) d) k
        = lookupD d k + add * (((wd.map (nodeBuckets bucket G)).flatten.count k : ℕ) : ℚ)
  | [], d => by simp
  | u :: rest, d => by
    rw [List.foldl_cons, List.map_cons, List.flatten_cons, List.count_append]
    cases hu : G.nodeData u with
    | none =>
      simp only [hu]
      rw [outer_fold_lookupD bucket add G k rest d]
      rw [show nodeBuckets bucket G u = [] by simp [nodeBuckets, hu]]
      simp
    | some lu =>
      simp only [hu]
      rw [outer_fold_lookupD bucket add G k rest _]
      rw [inner_fold_lookupD bucket add G lu k (G.neighbors u) d]
      rw [show nodeBuckets bucket G u = (G.neighbors u).filterMap (fun v =>
          match G.nodeData v with
          | some lv => some (bucket lu lv)
          | none => none) by simp [nodeBuckets, hu]]
      push_cast
      ring

theorem fittingDictionary_lookupD (bucket : Loc → Loc → ℚ) (add : ℚ)
    (wd : List ℕ) (G : MentionGraph) (k : ℚ) :
    lookupD (fittingDictionary bucket add wd G) k
      = add * (((bucketKeyList bucket wd G).count k : ℕ) : ℚ) := by
  have h := outer_fold_lookupD bucket add G k wd []
  simpa [fittingDictionary, bucketKeyList, lookupD] using h

theorem outer_fold_mem_keys (bucket : Loc → Loc → ℚ) (add : ℚ)
    (G : MentionGraph) (k' : ℚ) :
    ∀ (wd : List ℕ) (d : List (ℚ × ℚ)),
      k' ∈ ((wd.foldl (fun d node =>
          match G.nodeData node with
          | some location_u =>
            (G.neighbors node).foldl (fun d neighbor =>
              match G.nodeData neighbor with
              | some location_v => bumpKey d (bucket location_u location_v) add
              | none => d) d
          | none => d) d).map Prod.fst)
        ↔ k' ∈ d.map Prod.fst ∨ k' ∈ (wd.map (nodeBuckets bucket G)).flatten
  | [], d => by simp
  | u :: rest, d => by
    rw [List.foldl_cons, List.map_cons, List.flatten_cons, List.mem_append]
    cases hu : G.nodeData u with
    | none =>
      simp only [hu]
      rw [outer_fold_mem_keys bucket add G k' rest d]
      rw [show nodeBuckets bucket G u = [] by simp [nodeBuckets, hu]]
      simp
    | some lu =>
      simp only [hu]
      rw [outer_fold_mem_keys bucket add G k' rest _]
      rw [inner_fold_mem_keys bucket add G lu k' (G.neighbors u) d]
      rw [show nodeBuckets bucket G u = (G.neighbors u).filterMap (fun v =>
          match G.nodeData v with
          | some lv => some (bucket lu lv)
          | none => none) by simp [nodeBuckets, hu]]
      tauto

theorem fittingDictionary_mem_keys (bucket : Loc → Loc → ℚ) (add : ℚ)
    (wd : List ℕ) (G : MentionGraph) (k' : ℚ) :
    k' ∈ (fittingDictionary bucket add wd G).map Prod.fst ↔
      k' ∈ bucketKeyList bucket wd G := by
  have h := outer_fold_mem_keys bucket add G k' wd []
  simpa [fittingDictionary, bucketKeyList] using h

theorem fittingDictionary_nodup_keys (bucket : Loc → Loc → ℚ) (add : ℚ)
    (wd : List ℕ) (G : MentionGraph) :
    ((fittingDictionary bucket add wd G).map Prod.fst).Nodup := by
  unfold fittingDictionary
  refine foldl_preserves_mem
    (fun d node =>
      match G.nodeData node with
      | some location_u =>
        (G.neighbors node).foldl (fun d neighbor =>
          match G.nodeData neighbor with
          | some location_v => bumpKey d (bucket location_u location_v) add
          | none => d) d
      | none => d)
    (fun d => (d.map Prod.fst).Nodup) wd []
    (fun d u _ hd => ?_) (by simp)
  cases hu : G.nodeData u with
  | none => simpa [hu] using hd
  | some lu =>
    simp only [hu]
    exact inner_fold_nodup_keys bucket add G lu (G.neighbors u) d hd

/-- Claim C5: the empirical histogram accumulates exactly `1/|KnownSet|` per
(KnownSet user, located neighbor) pair into the bucket of the pair's
distance, and the fitting routine is called on the distinct bucket keys in
ascending order paired with their accumulated frequencies. -/
theorem histogram_and_sorted_samples (bucket : Loc → Loc → ℚ) (wd : List ℕ)
    (G : MentionGraph) (hwd : wd ≠ []) (k q : ℚ) :
    lookupD (fittingDictionary bucket (1 / (wd.length : ℚ)) wd G) k
      = (1 / (wd.length : ℚ)) * (((bucketKeyList bucket wd G).count k : ℕ) : ℚ)
    ∧ compute_coefficients_call bucket wd G
      = some (sortedBucketKeys bucket (1 / (wd.length : ℚ)) wd G,
          (sortedBucketKeys bucket (1 / (wd.length : ℚ)) wd G).map
            (fun x => (1 / (wd.length : ℚ)) *
              (((bucketKeyList bucket wd G).count x : ℕ) : ℚ)))
    ∧ List.Sorted (· ≤ ·) (sortedBucketKeys bucket (1 / (wd.length : ℚ)) wd G)
    ∧ (sortedBucketKeys bucket (1 / (wd.length : ℚ)) wd G).Nodup
    ∧ (q ∈ sortedBucketKeys bucket (1 / (wd.length : ℚ)) wd G ↔
        q ∈ bucketKeyList bucket wd G) := by
  have hlen : ¬ wd.length = 0 := fun h => hwd (List.length_eq_zero.1 h)
  have h2 : compute_coefficients_call bucket wd G
      = some (sortedBucketKeys bucket (1 / (wd.length : ℚ)) wd G,
          (sortedBucketKeys bucket (1 / (wd.length : ℚ)) wd G).map
            (fun x => lookupD (fittingDictionary bucket (1 / (wd.length : ℚ)) wd G) x)) := by
    unfold compute_coefficients_call
    rw [if_neg hlen]
  have h3 : (sortedBucketKeys bucket (1 / (wd.length : ℚ)) wd G).map
        (fun x => lookupD (fittingDictionary bucket (1 / (wd.length : ℚ)) wd G) x)
      = (sortedBucketKeys bucket (1 / (wd.length : ℚ)) wd G).map
        (fun x => (1 / (wd.length : ℚ)) *
          (((bucketKeyList bucket wd G).count x : ℕ) : ℚ)) :=
    List.map_congr_left
      (fun x _ => fittingDictionary_lookupD bucket (1 / (wd.length : ℚ)) wd G x)
  refine ⟨fittingDictionary_lookupD bucket (1 / (wd.length : ℚ)) wd G k,
    by rw [h2, h3], ?_, ?_, ?_⟩
  · exact List.sorted_insertionSort _ _
  · exact ((List.perm_insertionSort _ _).nodup_iff).2
      (fittingDictionary_nodup_keys bucket (1 / (wd.length : ℚ)) wd G)
  · exact ((List.perm_insertionSort _ _).mem_iff).trans
      (fittingDictionary_mem_keys bucket (1 / (wd.length : ℚ)) wd G q)

/-- Witness for claim C5 at a concrete instance: KnownSet {0, 1} joined by an
edge, every pair landing in bucket 7. -/
theorem histogram_and_sorted_samples_witness :
    lookupD (fittingDictionary bucketSeven (1 / ((([0, 1] : List ℕ)).length : ℚ)) [0, 1] GraphC5) 7
      = (1 / ((([0, 1] : List ℕ)).length : ℚ)) *
        (((bucketKeyList bucketSeven [0, 1] GraphC5).count 7 : ℕ) : ℚ)
    ∧ compute_coefficients_call bucketSeven [0, 1] GraphC5
      = some (sortedBucketKeys bucketSeven (1 / ((([0, 1] : List ℕ)).length : ℚ)) [0, 1] GraphC5,
          (sortedBucketKeys bucketSeven (1 / ((([0, 1] : List ℕ)).length : ℚ)) [0, 1] GraphC5).map
            (fun x => (1 / ((([0, 1] : List ℕ)).length : ℚ)) *
              (((bucketKeyList bucketSeven [0, 1] GraphC5).count x : ℕ) : ℚ)))
    ∧ List.Sorted (· ≤ ·)
        (sortedBucketKeys bucketSeven (1 / ((([0, 1] : List ℕ)).length : ℚ)) [0, 1] GraphC5)
    ∧ (sortedBucketKeys bucketSeven (1 / ((([0, 1] : List ℕ)).length : ℚ)) [0, 1] GraphC5).Nodup
    ∧ ((7 : ℚ) ∈ sortedBucketKeys bucketSeven (1 / ((([0, 1] : List ℕ)).length : ℚ)) [0, 1] GraphC5 ↔
        (7 : ℚ) ∈ bucketKeyList bucketSeven [0, 1] GraphC5) :=
  histogram_and_sorted_samples bucketSeven [0, 1] GraphC5 (by decide) 7 7

theorem splitTabs_noTab : ∀ a : List Char, '\t' ∉ a → splitTabs a = [a]
  | [], _ => rfl
  | c :: rest, h => by
    have hc : ¬ c = '\t' := fun he => h (he ▸ List.mem_cons_self _ _)
    have hrest : '\t' ∉ rest := fun hm => h (List.mem_cons_of_mem _ hm)
    simp [splitTabs, hc, splitTabs_noTab rest hrest]

theorem splitTabs_append : ∀ (a s : List Char), '\t' ∉ a →
    splitTabs (a ++ '\t' :: s) = a :: splitTabs s
  | [], s, _ => by simp [splitTabs]
  | c :: rest, s, h => by
    have hc : ¬ c = '\t' := fun he => h (he ▸ List.mem_cons_self _ _)
    have hrest : '\t' ∉ rest := fun hm => h (List.mem_cons_of_mem _ hm)
    rw [List.cons_append]
    show splitTabs (c :: (rest ++ '\t' :: s)) = _
    rw [show splitTabs (c :: (rest ++ '\t' :: s)) =
        (match splitTabs (rest ++ '\t' :: s) with
         | g :: gs => (c :: g) :: gs
         | [] => [[c]]) by simp [splitTabs, hc]]
    rw [splitTabs_append rest s hrest]

theorem splitTabs_saveLine (fmt : ℚ → List Char) (e : List Char × Loc)
    (hid : '\t' ∉ e.1) (hlat : '\t' ∉ fmt e.2.1) (hlon : '\t' ∉ fmt e.2.2) :
    splitTabs (saveLine fmt e) = [e.1, fmt e.2.1, fmt e.2.2] := by
  unfold saveLine
  rw [splitTabs_append e.1 _ hid]
  rw [splitTabs_append (fmt e.2.1) _ hlat]
  rw [splitTabs_noTab (fmt e.2.2) hlon]

theorem dictInsert_fresh (k : List Char) (v : Loc) :
    ∀ d : List (List Char × Loc),
      k ∉ d.map Prod.fst → dictInsert d k v = d ++ [(k, v)]
  | [], _ => rfl
  | p :: rest, h => by
    have hp : ¬ p.1 = k := fun he => h (by simp [he])
    have hrest : k ∉ rest.map Prod.fst := fun hm => h (by simp [hm])
    simp [dictInsert, hp, dictInsert_fresh k v rest hrest]

theorem load_save_aux (fmt : ℚ → List Char) (parse : List Char → Option ℚ) :
    ∀ (l acc : List (List Char × Loc)),
      (∀ e ∈ l, '\t' ∉ e.1) →
      (∀ e ∈ l, '\t' ∉ fmt e.2.1 ∧ '\t' ∉ fmt e.2.2) →
      (∀ e ∈ l, parse (fmt e.2.1) = some e.2.1 ∧ parse (fmt e.2.2) = some e.2.2) →
      (∀ e ∈ l, e.1 ∉ acc.map Prod.fst) →
      (l.map Prod.fst).Nodup →
      load_lines parse (save_index fmt l) acc = some (acc ++ l)
  | [], acc, _, _, _, _, _ => by simp [save_index, load_lines]
  | e :: rest, acc, hids, hfmt, hrt, hfresh, hnd => by
    have hsplit := splitTabs_saveLine fmt e (hids e (List.mem_cons_self _ _))
      (hfmt e (List.mem_cons_self _ _)).1 (hfmt e (List.mem_cons_self _ _)).2
    rw [show save_index fmt (e :: rest) = saveLine fmt e :: save_index fmt rest
      from rfl]
    rw [show load_lines parse (saveLine fmt e :: save_index fmt rest) acc =
        (match splitTabs (saveLine fmt e) with
         | c0 :: c1 :: c2 :: _ =>
           match parse c1, parse c2 with
           | some lat, some lon =>
             load_lines parse (save_index fmt rest) (dictInsert acc c0 (lat, lon))
           | _, _ => none
         | _ => none) from rfl]
    rw [hsplit]
    show (match parse (fmt e.2.1), parse (fmt e.2.2) with
          | some lat, some lon =>
            load_lines parse (save_index fmt rest) (dictInsert acc e.1 (lat, lon))
          | _, _ => none) = some (acc ++ e :: rest)
    rw [(hrt e (List.mem_cons_self _ _)).1, (hrt e (List.mem_cons_self _ _)).2]
    show load_lines parse (save_index fmt rest) (dictInsert acc e.1 (e.2.1, e.2.2)) =
      some (acc ++ e :: rest)
    rw [dictInsert_fresh e.1 (e.2.1, e.2.2) acc (hfresh e (List.mem_cons_self _ _))]
    rw [List.map_cons, List.nodup_cons] at hnd
    have hfresh' : ∀ e' ∈ rest, e'.1 ∉ (acc ++ [(e.1, (e.2.1, e.2.2))]).map Prod.fst := by
      intro e' he'
      rw [List.map_append, List.mem_append]
      rintro (hmem | hmem)
      · exact hfresh e' (List.mem_cons_of_mem _ he') hmem
      · rw [List.map_singleton, List.mem_singleton] at hmem
        exact hnd.1 (hmem ▸ List.mem_map_of_mem Prod.fst he')
    rw [load_save_aux fmt parse rest (acc ++ [(e.1, (e.2.1, e.2.2))])
      (fun e' he' => hids e' (List.mem_cons_of_mem _ he'))
      (fun e' he' => hfmt e' (List.mem_cons_of_mem _ he'))
      (fun e' he' => hrt e' (List.mem_cons_of_mem _ he'))
      hfresh' hnd.2]
    simp

/-- Counterexample to claim C6: a user identifier containing a tab is split
apart by the loader, so the round trip is not the identity — the single
entry with id "a\t1" and location (40, -73) comes back as id "a" with
location (1, 40). -/
theorem persisted_roundtrip_breaks_on_tab_id :
    load_index parseNum (save_index fmtNum idxTab) ≠ some idxTab := by
  decide

/-- Claim C6 as amended: the persisted-index round trip
`load(save(index)) = index` holds for every mapping whose user identifiers
are free of the tab separator and whose latitude/longitude values survive
the number format/parse pair (Python's `str`/`float`). -/
theorem persisted_roundtrip_identity (fmt : ℚ → List Char)
    (parse : List Char → Option ℚ) (l : List (List Char × Loc))
    (hids : ∀ e ∈ l, '\t' ∉ e.1)
    (hfmt : ∀ e ∈ l, '\t' ∉ fmt e.2.1 ∧ '\t' ∉ fmt e.2.2)
    (hrt : ∀ e ∈ l, parse (fmt e.2.1) = some e.2.1 ∧ parse (fmt e.2.2) = some e.2.2)
    (hnd : (l.map Prod.fst).Nodup) :
    load_index parse (save_index fmt l) = some l := by
  unfold load_index
  rw [load_save_aux fmt parse l [] hids hfmt hrt (fun e _ => by simp) hnd]
  simp

/-- Witness for the amended claim C6: a concrete tab-free index round-trips
to itself. -/
theorem persisted_roundtrip_identity_witness :
    load_index parseNum (save_index fmtNum idxPlain) = some idxPlain :=
  persisted_roundtrip_identity fmtNum parseNum idxPlain
    (by decide) (by decide) (by decide) (by decide)

theorem load_lines_none_of_bad (parse : List Char → Option ℚ) :
    ∀ (file : List (List Char)) (acc : List (List Char × Loc)),
      (∃ line ∈ file, (splitTabs line).length < 3 ∨
        ∃ c0 c1 c2 rest, splitTabs line = c0 :: c1 :: c2 :: rest ∧
          (parse c1 = none ∨ parse c2 = none)) →
      load_lines parse file acc = none
  | [], _, h => by
    rcases h with ⟨l, hl, _⟩
    exact absurd hl (List.not_mem_nil l)
  | line :: rest', acc, h => by
    have hstep : load_lines parse (line :: rest') acc =
        (match splitTabs line with
         | c0 :: c1 :: c2 :: _ =>
           match parse c1, parse c2 with
           | some lat, some lon =>
             load_lines parse rest' (dictInsert acc c0 (lat, lon))
           | _, _ => none
         | _ => none) := rfl
    rw [hstep]
    rcases hs : splitTabs line with _ | ⟨c0, _ | ⟨c1, _ | ⟨c2, tail⟩⟩⟩
    · rfl
    · rfl
    · rfl
    · show (match parse c1, parse c2 with
            | some lat, some lon =>
              load_lines parse rest' (dictInsert acc c0 (lat, lon))
            | _, _ => none) = none
      cases hp1 : parse c1 with
      | none => rfl
      | some lat =>
        cases hp2 : parse c2 with
        | none => rfl
        | some lon =>
          show load_lines parse rest' (dictInsert acc c0 (lat, lon)) = none
          rcases h with ⟨l0, hl0, hbad⟩
          rcases List.mem_cons.1 hl0 with rfl | hl0'
          · exfalso
            rcases hbad with hlen | ⟨c0', c1', c2', r', hs', hp⟩
            · rw [hs] at hlen
              simp only [List.length_cons] at hlen
              omega
            · rw [hs] at hs'
              obtain ⟨rfl, rfl, rfl, -⟩ :
                  c0 = c0' ∧ c1 = c1' ∧ c2 = c2' ∧ tail = r' := by
                simpa [List.cons.injEq] using hs'
              rcases hp with hp | hp
              · rw [hp1] at hp; exact Option.noConfusion hp
              · rw [hp2] at hp; exact Option.noConfusion hp
          · exact load_lines_none_of_bad parse rest' (dictInsert acc c0 (lat, lon))
              ⟨l0, hl0', hbad⟩

/-- Claim C7: loading the persisted index fails outright — no line is
skipped — as soon as some line has fewer than three tab-separated fields
(e.g. only two) or a latitude/longitude field that does not parse as a
floating-point number. -/
theorem load_fails_on_malformed_line (parse : List Char → Option ℚ)
    (file : List (List Char))
    (h : ∃ line ∈ file, (splitTabs line).length < 3 ∨
      ∃ c0 c1 c2 rest, splitTabs line = c0 :: c1 :: c2 :: rest ∧
        (parse c1 = none ∨ parse c2 = none)) :
    load_index parse file = none :=
  load_lines_none_of_bad parse file [] h

/-- Witness for claim C7: a file whose only line has two fields is
rejected. -/
theorem load_fails_on_malformed_line_witness :
    load_index parseNum fileTwoFields = none :=
  load_fails_on_malformed_line parseNum fileTwoFields
    ⟨['a', '\t', '1'], by decide, Or.inl (by decide)⟩
